import Mathlib

/-!
Verification of the core of the `blockchain` repository: the identity/wallet
model (`src/wallet.py`), the transaction pipeline (`src/transaction.py`), the
ledger store (`src/database.py`) and the mining engine (`src/mining.py`).

The Python modules are shallowly embedded below.  Database state (the sqlite
tables) and the pending-transaction file are explicit records threaded through
the functions; the current wall-clock time (`utils.get_timestamp`), the fresh
block name (`uuid4`) and the randomness of RSA key generation / PSS padding are
explicit parameters.  External libraries that the code calls (`hashlib.sha256`,
`base64`, the `cryptography` RSA primitives) are modelled by executable Lean
functions: SHA-256 is implemented in full, base64 follows the CPython
encoder/decoder, and the RSA-PSS sign/verify pair is an abstract executable
model that preserves the properties the code relies on (a signature is bytes
derived from the private key, a salt and the message; verification succeeds
exactly when the key pair matches and the message is the signed one).
-/

/-! ## Byte-level string helpers -/

/-- Bytes of a Python 2 `str`.  The code calls `.encode()` on ASCII text; each
character is one byte (non-ASCII code points are reduced mod 256, which is
faithful for the byte strings the program manipulates). -/
def strBytes (s : String) : List Nat :=
  s.data.map (fun c => c.toNat % 256)

/-- Big-endian 4-byte encoding of a natural number (mod 2^32). -/
def byte4 (n : Nat) : List Nat :=
  [n / 16777216 % 256, n / 65536 % 256, n / 256 % 256, n % 256]

/-- Big-endian 8-byte encoding of a natural number (mod 2^64). -/
def byte8 (n : Nat) : List Nat :=
  byte4 (n / 4294967296) ++ byte4 n

/-- Lowercase hexadecimal digit. -/
def hexChar (n : Nat) : Char :=
  "0123456789abcdef".data.getD n '0'

/-- Lowercase 8-digit hexadecimal rendering of a 32-bit word. -/
def hex8 (w : Nat) : String :=
  String.mk ((List.range 8).map (fun i => hexChar (w / 16 ^ (7 - i) % 16)))

/-! ## SHA-256 (models `hashlib.sha256(..).hexdigest()` from `utils.hexdigest`) -/

/-- 2^32, the modulus of SHA-256 word arithmetic. -/
def M32 : Nat := 4294967296

/-- Right rotation of a 32-bit word by `k` bits. -/
def rotr (k x : Nat) : Nat :=
  (x >>> k) ||| ((x % 2 ^ k) <<< (32 - k))

/-- SHA-256 `Ch` function. -/
def shaCh (e f g : Nat) : Nat := (e &&& f) ^^^ ((e ^^^ 4294967295) &&& g)

/-- SHA-256 `Maj` function. -/
def shaMaj (a b c : Nat) : Nat := (a &&& b) ^^^ (a &&& c) ^^^ (b &&& c)

/-- SHA-256 big sigma 0. -/
def bigSigma0 (x : Nat) : Nat := rotr 2 x ^^^ rotr 13 x ^^^ rotr 22 x

/-- SHA-256 big sigma 1. -/
def bigSigma1 (x : Nat) : Nat := rotr 6 x ^^^ rotr 11 x ^^^ rotr 25 x

/-- SHA-256 small sigma 0. -/
def smallSigma0 (x : Nat) : Nat := rotr 7 x ^^^ rotr 18 x ^^^ (x >>> 3)

/-- SHA-256 small sigma 1. -/
def smallSigma1 (x : Nat) : Nat := rotr 17 x ^^^ rotr 19 x ^^^ (x >>> 10)

/-- SHA-256 round constants. -/
def k256 : List Nat :=
  [1116352408, 1899447441, 3049323471, 3921009573, 961987163,
   1508970993, 2453635748, 2870763221, 3624381080, 310598401,
   607225278, 1426881987, 1925078388, 2162078206, 2614888103,
   3248222580, 3835390401, 4022224774, 264347078, 604807628,
   770255983, 1249150122, 1555081692, 1996064986, 2554220882,
   2821834349, 2952996808, 3210313671, 3336571891, 3584528711,
   113926993, 338241895, 666307205, 773529912, 1294757372,
   1396182291, 1695183700, 1986661051, 2177026350, 2456956037,
   2730485921, 2820302411, 3259730800, 3345764771, 3516065817,
   3600352804, 4094571909, 275423344, 430227734, 506948616,
   659060556, 883997877, 958139571, 1322822218, 1537002063,
   1747873779, 1955562222, 2024104815, 2227730452, 2361852424,
   2428436474, 2756734187, 3204031479, 3329325298]

/-- Working state of the SHA-256 compression function. -/
structure S8 where
  a : Nat
  b : Nat
  c : Nat
  d : Nat
  e : Nat
  f : Nat
  g : Nat
  h : Nat
deriving DecidableEq

/-- SHA-256 initial hash value. -/
def sha256Init : S8 :=
  ⟨1779033703, 3144134277, 1013904242, 2773480762,
   1359893119, 2600822924, 528734635, 1541459225⟩

/-- One SHA-256 round: the pair is (round constant, schedule word). -/
def shaRound (st : S8) (kw : Nat × Nat) : S8 :=
  let t1 := (st.h + bigSigma1 st.e + shaCh st.e st.f st.g + kw.1 + kw.2) % M32
  let t2 := (bigSigma0 st.a + shaMaj st.a st.b st.c) % M32
  ⟨(t1 + t2) % M32, st.a, st.b, st.c, (st.d + t1) % M32, st.e, st.f, st.g⟩

/-- Group bytes into big-endian 32-bit words (extra bytes are dropped). -/
def bytesToWords : List Nat → List Nat
  | b1 :: b2 :: b3 :: b4 :: rest =>
      (((b1 * 256 + b2) * 256 + b3) * 256 + b4) :: bytesToWords rest
  | _ => []

/-- Extend the 16-word message schedule by `n` further words. -/
def extendSchedule : Nat → List Nat → List Nat
  | 0, w => w
  | n + 1, w =>
      let l := w.length
      let x := (smallSigma1 (w.getD (l - 2) 0) + w.getD (l - 7) 0 +
                smallSigma0 (w.getD (l - 15) 0) + w.getD (l - 16) 0) % M32
      extendSchedule n (w ++ [x])

/-- Compress one 64-byte block into the running hash state. -/
def compressBlock (st : S8) (block : List Nat) : S8 :=
  let w := extendSchedule 48 (bytesToWords block)
  let r := (k256.zip w).foldl shaRound st
  ⟨(st.a + r.a) % M32, (st.b + r.b) % M32, (st.c + r.c) % M32, (st.d + r.d) % M32,
   (st.e + r.e) % M32, (st.f + r.f) % M32, (st.g + r.g) % M32, (st.h + r.h) % M32⟩

/-- SHA-256 message padding: a 0x80 byte, zeros, and the 64-bit bit length. -/
def shaPad (bs : List Nat) : List Nat :=
  bs ++ 128 :: List.replicate ((120 - (bs.length + 1) % 64) % 64) 0 ++
    byte8 (8 * bs.length)

/-- Split a byte list into 64-byte chunks; the first argument is fuel that is
always instantiated with the list length. -/
def chunks64 : Nat → List Nat → List (List Nat)
  | 0, _ => []
  | _ + 1, [] => []
  | n + 1, l => l.take 64 :: chunks64 n (l.drop 64)

/-- SHA-256 of a byte list, as a lowercase hexadecimal string. -/
def sha256hex (bs : List Nat) : String :=
  let p := shaPad bs
  let st := (chunks64 p.length p).foldl compressBlock sha256Init
  hex8 st.a ++ hex8 st.b ++ hex8 st.c ++ hex8 st.d ++
    hex8 st.e ++ hex8 st.f ++ hex8 st.g ++ hex8 st.h

/-- Embeds `utils.hexdigest`: the SHA-256 hex digest of the encoded string. -/
def hexdigest (message : String) : String :=
  sha256hex (strBytes message)

/-! ## Base64 (models Python 2 `base64.b64encode` / `b64decode`)

`b64decode` calls `binascii.a2b_base64`, which discards characters outside the
base64 alphabet, decodes four-character groups, stops at a well-placed pad and
raises `Error('Incorrect padding')` — surfaced by `base64.b64decode` as a
`TypeError` — when a partial group is left over.  Decoding failure is `none`
here.  Degenerate pad placements that CPython skips over are also `none`; no
input considered in this development exercises them. -/

/-- The base64 alphabet. -/
def b64Alphabet : String :=
  "ABCDEFGHIJKLMNOPQRSTUVWXYZabcdefghijklmnopqrstuvwxyz0123456789+/"

/-- Character for a 6-bit group. -/
def encChar (n : Nat) : Char := b64Alphabet.data.getD n 'A'

/-- 6-bit value of an alphabet character; `none` for '=' and foreign chars. -/
def decChar (c : Char) : Option Nat :=
  b64Alphabet.data.indexOf? c

/-- Keep the characters `a2b_base64` looks at: alphabet members and pads. -/
def isB64orPad (c : Char) : Bool :=
  b64Alphabet.data.contains c || c == '='

/-- Encode bytes three at a time into four-character groups. -/
def encodeChunks : List Nat → List Char
  | [] => []
  | [b1] => [encChar (b1 / 4), encChar (b1 % 4 * 16), '=', '=']
  | [b1, b2] => [encChar (b1 / 4), encChar (b1 % 4 * 16 + b2 / 16),
                 encChar (b2 % 16 * 4), '=']
  | b1 :: b2 :: b3 :: rest =>
      encChar (b1 / 4) :: encChar (b1 % 4 * 16 + b2 / 16) ::
      encChar (b2 % 16 * 4 + b3 / 64) :: encChar (b3 % 64) ::
      encodeChunks rest

/-- Embeds `base64.b64encode` on a byte list. -/
def b64encodeBytes (bs : List Nat) : String := String.mk (encodeChunks bs)

/-- Decode four-character groups; a pad group ends the input (CPython breaks
out of the loop at a completed pad), a leftover partial group fails. -/
def decodeQuads : List Char → Option (List Nat)
  | c1 :: c2 :: c3 :: c4 :: rest =>
      if c3 = '=' then
        if c4 = '=' then do
          let p1 ← decChar c1
          let p2 ← decChar c2
          pure [p1 * 4 + p2 / 16]
        else none
      else if c4 = '=' then do
        let p1 ← decChar c1
        let p2 ← decChar c2
        let p3 ← decChar c3
        pure [p1 * 4 + p2 / 16, p2 % 16 * 16 + p3 / 4]
      else do
        let p1 ← decChar c1
        let p2 ← decChar c2
        let p3 ← decChar c3
        let p4 ← decChar c4
        let rest' ← decodeQuads rest
        pure ((p1 * 4 + p2 / 16) :: (p2 % 16 * 16 + p3 / 4) ::
              (p3 % 4 * 64 + p4) :: rest')
  | [] => some []
  | _ => none

/-- Embeds `base64.b64decode`; `none` models the `TypeError` CPython 2 raises
on incorrect padding. -/
def b64decode (s : String) : Option (List Nat) :=
  decodeQuads (s.data.filter isB64orPad)

/-! ## JSON rendering (models `json.dumps` fragments used by the code) -/

/-- Lowercase 4-digit hex, as used in `\uXXXX` escapes. -/
def hex4 (n : Nat) : String :=
  String.mk [hexChar (n / 4096 % 16), hexChar (n / 256 % 16),
             hexChar (n / 16 % 16), hexChar (n % 16)]

/-- Escape one character the way `json.dumps` (default `ensure_ascii`) does. -/
def jsonEscapeChar (c : Char) : String :=
  if c = '"' then "\\\""
  else if c = '\\' then "\\\\"
  else if c = '\n' then "\\n"
  else if c = '\t' then "\\t"
  else if c = '\r' then "\\r"
  else if c.toNat = 8 then "\\b"
  else if c.toNat = 12 then "\\f"
  else if c.toNat < 32 || c.toNat > 127 then "\\u" ++ hex4 c.toNat
  else String.singleton c

/-- A JSON string literal for `s`. -/
def jsonQuote (s : String) : String :=
  "\"" ++ String.join (s.data.map jsonEscapeChar) ++ "\""

/-- A Python `float`, modelled as an exact rational (every float is a dyadic
rational; the program performs only additions on amounts, for which exact
rational arithmetic is the standard shallow embedding). -/
structure PyFloat where
  num : Int
  den : Nat
deriving DecidableEq

/-- Normalized rational constructor. -/
def pyFloat (n : Int) (d : Nat) : PyFloat :=
  let g := Nat.gcd n.natAbs d
  ⟨n / (g : Int), d / g⟩

/-- Addition of modelled floats. -/
def pfAdd (a b : PyFloat) : PyFloat :=
  pyFloat (a.num * (b.den : Int) + b.num * (a.den : Int)) (a.den * b.den)

/-- The float literal for an integer. -/
def pfInt (n : Int) : PyFloat := ⟨n, 1⟩

/-- Decimal digits of the proper fraction `n / d`, CPython-float style; the
fuel bound 1100 exceeds the longest decimal expansion of an IEEE double. -/
def fracDigits : Nat → Nat → Nat → String
  | 0, _, _ => ""
  | _ + 1, 0, _ => ""
  | fuel + 1, n, d => Nat.repr (n * 10 / d) ++ fracDigits fuel (n * 10 % d) d

/-- Rendering of a Python float: `str(2.0) = "2.0"`, `str(-2.5) = "-2.5"`. -/
def floatStr (q : PyFloat) : String :=
  (if q.num < 0 then "-" else "") ++ Nat.repr (q.num.natAbs / q.den) ++ "." ++
    (if q.num.natAbs % q.den = 0 then "0"
     else fracDigits 1100 (q.num.natAbs % q.den) q.den)

/-! ## The RSA model

The code uses the `cryptography` package: RSA key generation, PKCS8/PEM
private-key serialization encrypted under a passphrase
(`BestAvailableEncryption`), and RSA-PSS/SHA-256 signatures.  These external
primitives are modelled executably: a key pair is a natural-number identifier
(`generate` receives the fresh identifier as an explicit argument, standing for
the randomness of key generation); the encrypted private-key blob records the
key and the encryption passphrase, and decryption succeeds exactly on that
passphrase (`load_pem_private_key` raises `ValueError` otherwise); a PSS
signature is the 4-byte key identifier, a 4-byte random salt (PSS signing is
probabilistic — the salt is an explicit argument) and the message bytes, and
verification recomputes exactly that shape. -/

/-- An encrypted PKCS8 private-key blob: the key it contains and the
passphrase it is encrypted under. -/
structure EncKey where
  keyId : Nat
  password : String
deriving DecidableEq

/-- Models `serialization.load_pem_private_key`: the key on the right
passphrase, `none` for the `ValueError` on a wrong one. -/
def decryptPrivateKey (ek : EncKey) (password : String) : Option Nat :=
  if ek.password = password then some ek.keyId else none

/-- Models RSA-PSS signing: signature bytes from key, salt and message. -/
def sigBytes (key : Nat) (message : String) (salt : Nat) : List Nat :=
  byte4 key ++ byte4 salt ++ strBytes message

/-- Models RSA-PSS verification against a public key: accepts exactly the
signatures `sigBytes` produces for this key and message (the four salt bytes
are ignored, as PSS verification accepts every salt). -/
def rsaVerify (pubKey : Nat) (message : String) (sig : List Nat) : Bool :=
  match sig with
  | k1 :: k2 :: k3 :: k4 :: _ :: _ :: _ :: _ :: rest =>
      byte4 pubKey == [k1, k2, k3, k4] && rest == strBytes message
  | _ => false

/-! ## Database state (embeds `src/database.py`)

The sqlite database is a record of the three tables.  `BLOCK_ID` is an
`AUTOINCREMENT` primary key, modelled by the `nextId` counter.  `fetchone` on a
`SELECT` returns the first matching row or `None`; the row of the single-column
`SELECT` in `get_last_block_hash` is modelled by its only cell (its Python
rendering as a one-element tuple reappears in the mining embedding, where the
code stringifies it). -/

/-- A row of the `WALLETS` table: name, public key, encrypted private key. -/
structure WalletRow where
  name : String
  pubKey : Nat
  pvtKey : EncKey
deriving DecidableEq

/-- A row of the `BLOCKCHAIN` table. -/
structure BlockRow where
  id : Nat
  name : String
  transCount : Nat
  amount : PyFloat
  timestamp : String
  hash : String
deriving DecidableEq

/-- A row of the `TRANSACTIONS` table. -/
structure TxRow where
  block : String
  sender : String
  receiver : String
  amount : PyFloat
  submittedTime : String
  verifiedTime : String
deriving DecidableEq

/-- The database: the three tables plus the `AUTOINCREMENT` counter of the
`BLOCKCHAIN` table. -/
structure DB where
  wallets : List WalletRow
  blocks : List BlockRow
  txRows : List TxRow
  nextId : Nat
deriving DecidableEq

/-- Embeds `BlockChainDB.get_wallet`: first row whose `NAME` matches. -/
def getWallet (db : DB) (name : String) : Option WalletRow :=
  db.wallets.find? (fun r => r.name = name)

/-- Embeds `database.add_wallet` (insert into `WALLETS`). -/
def addWallet (db : DB) (row : WalletRow) : DB :=
  { db with wallets := db.wallets ++ [row] }

/-- Embeds `BlockChainDB.get_users`: all wallet names. -/
def getUsers (db : DB) : List String :=
  db.wallets.map (fun r => r.name)

/-- Embeds `database.is_unique_name`: `name not in get_wallet_holders()`. -/
def isUniqueName (db : DB) (name : String) : Bool :=
  !((getUsers db).contains name)

/-- A verified transaction (`transaction.VerifiedTransaction`). -/
structure VT where
  sender : String
  receiver : String
  amount : PyFloat
  submittedTime : String
  verifiedTime : String
deriving DecidableEq

/-- Embeds `BlockChainDB.add_transaction` (insert into `TRANSACTIONS`). -/
def addTransaction (db : DB) (block : String) (t : VT) : DB :=
  { db with txRows := db.txRows ++
      [⟨block, t.sender, t.receiver, t.amount, t.submittedTime, t.verifiedTime⟩] }

/-- Embeds `BlockChainDB.add_block`: one transaction row per verified
transaction (accumulating the transacted amount), then the block row. -/
def dbAddBlock (db : DB) (blockName : String) (transactions : List VT)
    (timestamp hashValue : String) : DB :=
  let acc := transactions.foldl
    (fun (p : PyFloat × DB) t => (pfAdd p.1 t.amount, addTransaction p.2 blockName t))
    (pfInt 0, db)
  { acc.2 with
    blocks := acc.2.blocks ++
      [⟨acc.2.nextId, blockName, transactions.length, acc.1, timestamp, hashValue⟩],
    nextId := acc.2.nextId + 1 }

/-- Maximum of a list of naturals: models sqlite `MAX(BLOCK_ID)` (`none` on an
empty table). -/
def listMax : List Nat → Option Nat
  | [] => none
  | x :: xs => some (match listMax xs with
      | none => x
      | some m => Nat.max x m)

/-- Embeds `BlockChainDB.get_last_block_hash` / `database.get_last_block_hash`:
`SELECT BLOCK_HASH WHERE BLOCK_ID = (SELECT MAX(BLOCK_ID))`, `fetchone`. -/
def getLastBlockHash (db : DB) : Option String :=
  match listMax (db.blocks.map (fun r => r.id)) with
  | none => none
  | some m => (db.blocks.find? (fun r => r.id = m)).map (fun r => r.hash)

/-! ## Wallet (embeds `src/wallet.py`) -/

/-- The Python exceptions that can escape the modelled code: the `TypeError`
of `base64.b64decode` on incorrect padding, and the `AttributeError` of
calling `.verify` on a `None` public key. -/
inductive PyExc where
  | typeError
  | attributeError
deriving DecidableEq

deriving instance DecidableEq for Except

/-- A `Wallet` instance: `__init__` stores the owner and the encrypted private
key, and loads the public key from the database (`none` if the row is
missing). -/
structure PyWallet where
  owner : String
  encryptedPrivateKey : EncKey
  publicKey : Option Nat
deriving DecidableEq

/-- Embeds `Wallet._load_pem_public_key`: the stored public key bytes. -/
def loadPubKey (db : DB) (owner : String) : Option Nat :=
  (getWallet db owner).map (fun r => r.pubKey)

/-- Embeds `Wallet.load_from_database`: `None` when the owner has no row,
otherwise a `Wallet` built from the stored material. -/
def loadFromDatabase (db : DB) (owner : String) : Option PyWallet :=
  (getWallet db owner).map (fun r => ⟨r.name, r.pvtKey, loadPubKey db r.name⟩)

/-- Embeds `Wallet.generate`.  `freshKey` stands for the fresh RSA key pair
(`rsa.generate_private_key` is random).  If the owner already has a wallet the
stored one is returned and the database is untouched; otherwise the private
key is encrypted under `password`, the row is persisted and the new wallet is
returned. -/
def walletGenerate (db : DB) (owner password : String) (freshKey : Nat) :
    Option PyWallet × DB :=
  if !(isUniqueName db owner) then
    (loadFromDatabase db owner, db)
  else
    let enc : EncKey := ⟨freshKey, password⟩
    let db' := addWallet db ⟨owner, freshKey, enc⟩
    (some ⟨owner, enc, loadPubKey db' owner⟩, db')

/-- Embeds `Wallet.sign`: decrypt the private key (`None` on a wrong
passphrase), then a base64-encoded PSS signature; `salt` stands for the
randomness of the PSS padding. -/
def walletSign (w : PyWallet) (message password : String) (salt : Nat) :
    Option String :=
  match decryptPrivateKey w.encryptedPrivateKey password with
  | none => none
  | some key => some (b64encodeBytes (sigBytes key message salt))

/-- Embeds `Wallet.verify`: `b64decode` the signature (its `TypeError` on a
malformed encoding is *not* caught — the `except` clause catches only
`InvalidSignature`), then RSA-PSS verification, where `InvalidSignature` is
caught and becomes `False`. -/
def walletVerify (w : PyWallet) (message signature : String) :
    Except PyExc Bool :=
  match b64decode signature with
  | none => .error .typeError
  | some bs =>
      match w.publicKey with
      | none => .error .attributeError
      | some pk => .ok (rsaVerify pk message bs)

/-! ## Transaction pipeline (embeds `src/transaction.py`)

The pending-transactions JSON file is modelled as a `List PendingEntry`; a
system state bundles it with the database.  `utils.get_timestamp()` results
are explicit `String` parameters. -/

/-- One entry of the pending-transactions file, as written by
`submit_transaction`. -/
structure PendingEntry where
  sender : String
  receiver : String
  amount : PyFloat
  signature : String
  submittedTime : String
deriving DecidableEq

/-- The mutable state the pipeline touches: the database and the
pending-transactions file. -/
structure SysState where
  db : DB
  queue : List PendingEntry
deriving DecidableEq

/-- Embeds `PendingTransaction.message`:
`"{} sends {} dummycoins to {}".format(sender, amount, receiver)`. -/
def transactionMessage (sender : String) (amount : PyFloat) (receiver : String) :
    String :=
  sender ++ " sends " ++ floatStr amount ++ " dummycoins to " ++ receiver

/-- Embeds `PendingTransaction.sign`: load the sender's wallet (`None` if
absent) and sign the canonical message with it. -/
def pendingSign (db : DB) (sender : String) (amount : PyFloat) (receiver : String)
    (password : String) (salt : Nat) : Option String :=
  match loadFromDatabase db sender with
  | none => none
  | some w => walletSign w (transactionMessage sender amount receiver) password salt

/-- Embeds `transaction.verify_transaction` / `PendingTransaction.verify`: a
missing sender wallet yields Python `None` (falsy, modelled `false`),
otherwise the wallet verifies the stored signature against the recomputed
canonical message.  A decoding failure inside `Wallet.verify` escapes. -/
def verifyTransaction (db : DB) (e : PendingEntry) : Except PyExc Bool :=
  match loadFromDatabase db e.sender with
  | none => .ok false
  | some w =>
      walletVerify w (transactionMessage e.sender e.amount e.receiver) e.signature

/-- Embeds `transaction.submit_transaction`: sign the canonical message; on a
falsy signature return `False` with the file untouched, otherwise append the
entry to the pending file and return `True`.  `timestamp` is the
`utils.get_timestamp()` value, `salt` the PSS randomness. -/
def submitTransaction (st : SysState) (sender receiver : String) (amount : PyFloat)
    (password timestamp : String) (salt : Nat) : Bool × SysState :=
  match pendingSign st.db sender amount receiver password salt with
  | none => (false, st)
  | some signature =>
      if signature.data.isEmpty then (false, st)
      else (true, { st with queue := st.queue ++
        [⟨sender, receiver, amount, signature, timestamp⟩] })

/-- Embeds `transaction.verify_pending_transactions`: the list comprehension
`[VerifiedTransaction(..., get_timestamp()) for t in pending if
verify_transaction(t)]`.  `now` is the `get_timestamp()` value; an exception
from any entry's verification propagates. -/
def verifyPendingTransactions (db : DB) (queue : List PendingEntry)
    (now : String) : Except PyExc (List VT) :=
  match queue with
  | [] => .ok []
  | e :: rest =>
      match verifyTransaction db e with
      | .error exc => .error exc
      | .ok b =>
          match verifyPendingTransactions db rest now with
          | .error exc => .error exc
          | .ok tail =>
              .ok (if b then
                ⟨e.sender, e.receiver, e.amount, e.submittedTime, now⟩ :: tail
              else tail)

/-- Embeds `transaction.clear_transactions`: overwrite the file with `[]`. -/
def clearTransactions (st : SysState) : SysState :=
  { st with queue := [] }

/-! ## Block hashing and `database.add_block` -/

/-- Embeds `JsonSerializable.to_json` for a `VerifiedTransaction`:
`json.dumps(self.__dict__)`.  The instance dictionary holds the name-mangled
attributes; CPython 2 iterates a `dict` in an interpreter-determined order,
fixed here as the sorted one. -/
def vtToJson (t : VT) : String :=
  "\x7b\"_BaseTransaction__amount\": " ++ floatStr t.amount ++
  ", \"_BaseTransaction__receiver\": " ++ jsonQuote t.receiver ++
  ", \"_BaseTransaction__sender\": " ++ jsonQuote t.sender ++
  ", \"_VerifiedTransaction__submitted_time\": " ++ jsonQuote t.submittedTime ++
  ", \"_VerifiedTransaction__verified_time\": " ++ jsonQuote t.verifiedTime ++
  "\x7d"

/-- Lexicographic order on character lists by code point. -/
def charListLe : List Char → List Char → Bool
  | [], _ => true
  | _ :: _, [] => false
  | a :: as, b :: bs =>
      if a.toNat < b.toNat then true
      else if b.toNat < a.toNat then false
      else charListLe as bs

/-- String order as Python 2 compares `str` keys for `sort_keys=True`
(byte-wise; identical to code-point order on the ASCII keys dumped here). -/
def strLe (a b : String) : Bool :=
  charListLe a.data b.data

/-- Insert into a key-sorted association list (values are pre-rendered JSON
fragments). -/
def insertKV (kv : String × String) : List (String × String) →
    List (String × String)
  | [] => [kv]
  | p :: rest =>
      if strLe kv.1 p.1 then kv :: p :: rest else p :: insertKV kv rest

/-- Sort an association list by key. -/
def sortKV : List (String × String) → List (String × String)
  | [] => []
  | p :: rest => insertKV p (sortKV rest)

/-- Embeds `json.dumps(d, sort_keys=True)` for a flat dictionary whose values
are already rendered. -/
def pyJsonDumpsSorted (kvs : List (String × String)) : String :=
  "\x7b" ++
    String.intercalate ", "
      ((sortKV kvs).map (fun kv => jsonQuote kv.1 ++ ": " ++ kv.2)) ++
  "\x7d"

/-- JSON rendering of the `hash_dict['transactions']` list of pre-serialized
transaction strings. -/
def txJsonList (transactions : List VT) : String :=
  "[" ++ String.intercalate ", "
    (transactions.map (fun t => jsonQuote (vtToJson t))) ++ "]"

/-- The `hash_string` of `database.add_block`: the sorted-key JSON dump of
`{'name': .., 'transactions': [t.to_json() ..], 'timestamp': ..}`. -/
def blockHashString (blockName : String) (transactions : List VT)
    (timestamp : String) : String :=
  pyJsonDumpsSorted
    [("name", jsonQuote blockName),
     ("transactions", txJsonList transactions),
     ("timestamp", jsonQuote timestamp)]

/-- Embeds the module-level `database.add_block`: compute the timestamp
(parameter), the content hash, and insert block and transactions. -/
def addBlock (db : DB) (blockName : String) (transactions : List VT)
    (timestamp : String) : DB :=
  dbAddBlock db blockName transactions timestamp
    (hexdigest (blockHashString blockName transactions timestamp))

/-! ## Mining engine (embeds `src/mining.py`) -/

/-- `MINING_DIFFICULTY`. -/
def MINING_DIFFICULTY : Nat := 2

/-- `MINING_DIGIT`. -/
def MINING_DIGIT : String := "0"

/-- `MINING_PREFIX = MINING_DIGIT*MINING_DIFFICULTY`. -/
def MINING_PREFIX : String := "00"

/-- Python `repr` of a `VerifiedTransaction` list, as `str(self.__transactions)`
produces it: elements are `repr`ed, and `JsonSerializable.__repr__` is
`to_json`. -/
def pyStrVTList (transactions : List VT) : String :=
  "[" ++ String.intercalate ", " (transactions.map vtToJson) ++ "]"

/-- The proof-of-work seed `message` of `Mining.proof_of_work`:
`str(self.__transactions) + str(last_block_hash)`.  On an empty chain
`last_block_hash` was replaced by the string `"00"`; otherwise it is the row
`fetchone` returned — a one-element tuple of a unicode string, whose Python 2
`str()` is `"(u'<hash>',)"`. -/
def powMessage (transactions : List VT) (db : DB) : String :=
  pyStrVTList transactions ++
    match getLastBlockHash db with
    | none => "00"
    | some h => "(u\x27" ++ h ++ "\x27,)"

/-- Embeds `Mining._found_match`: the first `MINING_DIFFICULTY` hex characters
of `SHA256(str(message) + str(nonce))` equal `MINING_PREFIX`. -/
def foundMatch (message : String) (nonce : Nat) : Bool :=
  (hexdigest (message ++ Nat.repr nonce)).data.take MINING_DIFFICULTY ==
    String.data MINING_PREFIX

/-- The `while` loop of `Mining.proof_of_work`, starting at `nonce` with
explicit fuel: `none` means the loop has not terminated within `fuel`
iterations. -/
def powLoop (message : String) : Nat → Nat → Option Nat
  | 0, _ => none
  | fuel + 1, nonce =>
      if foundMatch message nonce then some nonce
      else powLoop message fuel (nonce + 1)

/-- Embeds `Mining.proof_of_work` for a mining run holding `transactions`:
seed construction plus the nonce search from 0. -/
def proofOfWork (transactions : List VT) (db : DB) (fuel : Nat) : Option Nat :=
  powLoop (powMessage transactions db) fuel 0

/-- Embeds `Mining.add_to_blockchain`: persist the block under the fresh
`uuid4` name and clear the pending file. -/
def addToBlockchain (st : SysState) (transactions : List VT)
    (blockName timestamp : String) : SysState :=
  clearTransactions { st with db := addBlock st.db blockName transactions timestamp }

/-- Embeds `Mining.mine`: verify the pending transactions (an exception
propagates); an empty verified list aborts with a warning (`.ok (some (st,
false))`); otherwise search the nonce (`.ok none` if the loop is still running
after `fuel` iterations) and commit.  `blockName` is the `uuid4` value,
`timestamp` and `now` the two `get_timestamp()` values. -/
def mine (st : SysState) (fuel : Nat) (blockName timestamp now : String) :
    Except PyExc (Option (SysState × Bool)) :=
  match verifyPendingTransactions st.db st.queue now with
  | .error exc => .error exc
  | .ok [] => .ok (some (st, false))
  | .ok (v :: vs) =>
      match powLoop (powMessage (v :: vs) st.db) fuel 0 with
      | none => .ok none
      | some _ => .ok (some (addToBlockchain st (v :: vs) blockName timestamp, true))

/-! ## Specification-side definitions and well-formedness predicates -/

/-- The proof-of-work seed as the specification claims it: the stringified
verified transactions concatenated with the previous block's hash itself (or
the fixed constant on an empty ledger).  Stated for comparison with
`powMessage`, the seed the code builds. -/
def powMessageClaimed (transactions : List VT) (db : DB) : String :=
  pyStrVTList transactions ++
    match getLastBlockHash db with
    | none => "00"
    | some h => h

/-- Left-fold sum of modelled floats, as `transacted_amount` accumulates. -/
def pfSum (l : List PyFloat) : PyFloat := l.foldl pfAdd (pfInt 0)

/-- Well-formedness of the `BLOCKCHAIN` table maintained by insertion: block
ids are strictly increasing in row order and below the `AUTOINCREMENT`
counter. -/
def BlocksWF (db : DB) : Prop :=
  List.Pairwise (· < ·) (db.blocks.map (fun r => r.id)) ∧
    ∀ r ∈ db.blocks, r.id < db.nextId

instance (db : DB) : Decidable (BlocksWF db) := by
  unfold BlocksWF; infer_instance

/-! ## Concrete states used by witnesses and counterexamples -/

/-- A wallet row for owner `"A"`: key pair 7, private key encrypted under
`"pw"`. -/
def cWalletA : WalletRow := ⟨"A", 7, ⟨7, "pw"⟩⟩

/-- A database holding only `"A"`'s wallet, with an empty ledger. -/
def cDb : DB := ⟨[cWalletA], [], [], 1⟩

/-- The verified transaction produced by the concrete end-to-end run. -/
def cVt : VT := ⟨"A", "B", pfInt (-2), "s", "t897"⟩

/-- The state after `"A"` submits `-2.0` dummycoins to `"B"` at time `"s"`
with PSS salt 5. -/
def cStAfter : SysState :=
  (submitTransaction ⟨cDb, []⟩ "A" "B" (pfInt (-2)) "pw" "s" 5).2

/-- The state after the concrete mining run commits block `"blk"`. -/
def cMined : SysState := ⟨addBlock cDb "blk" [cVt] "ts2", []⟩

/-- A ledger with a single block whose hash is `"ab"`. -/
def cDbOneBlock : DB := ⟨[], [⟨1, "b1", 0, pfInt 0, "t0", "ab"⟩], [], 2⟩

/-- A ledger with two blocks, hashes `"h1"` then `"h2"`. -/
def cDbTwoBlocks : DB :=
  ⟨[], [⟨1, "b1", 0, pfInt 0, "t0", "h1"⟩, ⟨2, "b2", 0, pfInt 0, "t1", "h2"⟩], [], 3⟩

/-- A valid pending entry: `"A"` sends 1.0 to `"B"`, correctly signed. -/
def cGood1 : PendingEntry :=
  ⟨"A", "B", pfInt 1,
   b64encodeBytes (sigBytes 7 (transactionMessage "A" (pfInt 1) "B") 11), "s1"⟩

/-- A tampered pending entry: the stored signature decodes but does not
verify. -/
def cTampered : PendingEntry := ⟨"A", "B", pfInt 2, "AAAA", "s2"⟩

/-- A second valid pending entry: `"A"` sends 3.0 to `"C"`. -/
def cGood3 : PendingEntry :=
  ⟨"A", "C", pfInt 3,
   b64encodeBytes (sigBytes 7 (transactionMessage "A" (pfInt 3) "C") 12), "s3"⟩

/-- A pending entry whose stored signature is not decodable base64. -/
def cUndecodable : PendingEntry := ⟨"A", "B", pfInt 2, "a", "s4"⟩

/-- A state whose queue holds one entry from an unknown sender. -/
def cStGhost : SysState := ⟨⟨[], [], [], 1⟩, [⟨"ghost", "B", pfInt 1, "AAAA", "s"⟩]⟩

/-! ## Helper lemmas: base64 round trip -/

theorem pad_valid : isB64orPad '=' = true := by decide

theorem encChar_valid (n : Nat) : isB64orPad (encChar n) = true := by
  unfold encChar
  rcases Nat.lt_or_ge n b64Alphabet.data.length with h | h
  · rw [List.getD_eq_getElem _ _ h]
    have hm : b64Alphabet.data[n] ∈ b64Alphabet.data := List.getElem_mem h
    unfold isB64orPad List.contains
    rw [List.elem_eq_true_of_mem hm]
    rfl
  · rw [List.getD_eq_default _ _ h]; decide

theorem encChar_ne_pad (n : Nat) : ¬(encChar n = '=') := by
  unfold encChar
  rcases Nat.lt_or_ge n b64Alphabet.data.length with h | h
  · rw [List.getD_eq_getElem _ _ h]
    have hm : b64Alphabet.data[n] ∈ b64Alphabet.data := List.getElem_mem h
    intro he
    rw [he] at hm
    revert hm; decide
  · rw [List.getD_eq_default _ _ h]; decide

theorem decChar_encChar : ∀ n, n < 64 → decChar (encChar n) = some n := by decide

theorem encodeChunks_mem_valid :
    ∀ (bs : List Nat) (c : Char), c ∈ encodeChunks bs → isB64orPad c = true
  | [], c, h => by simp [encodeChunks] at h
  | [b1], c, h => by
      simp only [encodeChunks, List.mem_cons, List.not_mem_nil, or_false] at h
      rcases h with rfl | rfl | rfl | rfl
      · exact encChar_valid _
      · exact encChar_valid _
      · exact pad_valid
      · exact pad_valid
  | [b1, b2], c, h => by
      simp only [encodeChunks, List.mem_cons, List.not_mem_nil, or_false] at h
      rcases h with rfl | rfl | rfl | rfl
      · exact encChar_valid _
      · exact encChar_valid _
      · exact encChar_valid _
      · exact pad_valid
  | b1 :: b2 :: b3 :: rest, c, h => by
      simp only [encodeChunks, List.mem_cons] at h
      rcases h with rfl | rfl | rfl | rfl | h
      · exact encChar_valid _
      · exact encChar_valid _
      · exact encChar_valid _
      · exact encChar_valid _
      · exact encodeChunks_mem_valid rest c h

theorem decodeQuads_encodeChunks :
    ∀ (bs : List Nat), (∀ b ∈ bs, b < 256) →
      decodeQuads (encodeChunks bs) = some bs
  | [], _ => rfl
  | [b1], h => by
      have hb1 : b1 < 256 := h b1 (by simp)
      have e1 : b1 / 4 * 4 + b1 % 4 * 16 / 16 = b1 := by omega
      simp [encodeChunks, decodeQuads,
        decChar_encChar (b1 / 4) (by omega),
        decChar_encChar (b1 % 4 * 16) (by omega), e1]
      all_goals omega
  | [b1, b2], h => by
      have hb1 : b1 < 256 := h b1 (by simp)
      have hb2 : b2 < 256 := h b2 (by simp)
      have e1 : b1 / 4 * 4 + (b1 % 4 * 16 + b2 / 16) / 16 = b1 := by omega
      have e2 : (b1 % 4 * 16 + b2 / 16) % 16 * 16 + b2 % 16 * 4 / 4 = b2 := by omega
      simp [encodeChunks, decodeQuads, encChar_ne_pad,
        decChar_encChar (b1 / 4) (by omega),
        decChar_encChar (b1 % 4 * 16 + b2 / 16) (by omega),
        decChar_encChar (b2 % 16 * 4) (by omega), e1, e2]
      all_goals omega
  | [b1, b2, b3], h => by
      have hb1 : b1 < 256 := h b1 (by simp)
      have hb2 : b2 < 256 := h b2 (by simp)
      have hb3 : b3 < 256 := h b3 (by simp)
      have e1 : b1 / 4 * 4 + (b1 % 4 * 16 + b2 / 16) / 16 = b1 := by omega
      have e2 : (b1 % 4 * 16 + b2 / 16) % 16 * 16 + (b2 % 16 * 4 + b3 / 64) / 4 = b2 := by
        omega
      have e3 : (b2 % 16 * 4 + b3 / 64) % 4 * 64 + b3 % 64 = b3 := by omega
      simp [encodeChunks, decodeQuads, encChar_ne_pad,
        decChar_encChar (b1 / 4) (by omega),
        decChar_encChar (b1 % 4 * 16 + b2 / 16) (by omega),
        decChar_encChar (b2 % 16 * 4 + b3 / 64) (by omega),
        decChar_encChar (b3 % 64) (by omega), e1, e2, e3]
  | b1 :: b2 :: b3 :: b4 :: rest, h => by
      have hb1 : b1 < 256 := h b1 (by simp)
      have hb2 : b2 < 256 := h b2 (by simp)
      have hb3 : b3 < 256 := h b3 (by simp)
      have ih := decodeQuads_encodeChunks (b4 :: rest)
        (fun b hb => h b (by simp at hb ⊢; tauto))
      have e1 : b1 / 4 * 4 + (b1 % 4 * 16 + b2 / 16) / 16 = b1 := by omega
      have e2 : (b1 % 4 * 16 + b2 / 16) % 16 * 16 + (b2 % 16 * 4 + b3 / 64) / 4 = b2 := by
        omega
      have e3 : (b2 % 16 * 4 + b3 / 64) % 4 * 64 + b3 % 64 = b3 := by omega
      simp [encodeChunks, decodeQuads, encChar_ne_pad,
        decChar_encChar (b1 / 4) (by omega),
        decChar_encChar (b1 % 4 * 16 + b2 / 16) (by omega),
        decChar_encChar (b2 % 16 * 4 + b3 / 64) (by omega),
        decChar_encChar (b3 % 64) (by omega), ih, e1, e2, e3]

theorem b64_roundtrip (bs : List Nat) (h : ∀ b ∈ bs, b < 256) :
    b64decode (b64encodeBytes bs) = some bs := by
  unfold b64decode b64encodeBytes
  rw [show (String.mk (encodeChunks bs)).data = encodeChunks bs from rfl]
  rw [List.filter_eq_self.mpr (fun c hc => encodeChunks_mem_valid bs c hc)]
  exact decodeQuads_encodeChunks bs h

/-! ## Helper lemmas: the RSA model, the nonce search, the ledger -/

theorem sigBytes_lt (k salt : Nat) (m : String) :
    ∀ b ∈ sigBytes k m salt, b < 256 := by
  intro b hb
  simp only [sigBytes, byte4, strBytes, List.mem_append, List.mem_cons,
    List.not_mem_nil, or_false, List.mem_map] at hb
  rcases hb with (h | h | h | h) | (h | h | h | h) | ⟨c, _, h⟩ <;> omega

theorem rsaVerify_sigBytes (k salt : Nat) (m : String) :
    rsaVerify k m (sigBytes k m salt) = true := by
  simp [rsaVerify, sigBytes, byte4]

theorem sigBytes_encode_ne_empty (k salt : Nat) (m : String) :
    (b64encodeBytes (sigBytes k m salt)).data.isEmpty = false := by
  simp only [b64encodeBytes, sigBytes, byte4, List.cons_append, encodeChunks]
  rfl

theorem verify_own_signature (pk salt : Nat) (ek : EncKey) (o m : String) :
    walletVerify ⟨o, ek, some pk⟩ m (b64encodeBytes (sigBytes pk m salt)) =
      .ok true := by
  simp [walletVerify, b64_roundtrip _ (sigBytes_lt pk salt m), rsaVerify_sigBytes]

theorem powLoop_sound (message : String) :
    ∀ (fuel start n : Nat), powLoop message fuel start = some n →
      start ≤ n ∧ foundMatch message n = true ∧
        ∀ j, start ≤ j → j < n → foundMatch message j = false
  | 0, start, n, h => by simp [powLoop] at h
  | fuel + 1, start, n, h => by
      rw [powLoop] at h
      by_cases hf : foundMatch message start
      · rw [if_pos hf] at h
        cases h
        exact ⟨Nat.le_refl _, hf, fun j h1 h2 => absurd h1 (Nat.not_le_of_lt h2)⟩
      · rw [if_neg hf] at h
        obtain ⟨h1, h2, h3⟩ := powLoop_sound message fuel (start + 1) n h
        refine ⟨by omega, h2, fun j hj1 hj2 => ?_⟩
        rcases Nat.eq_or_lt_of_le hj1 with rfl | hlt
        · exact Bool.eq_false_iff.mpr hf
        · exact h3 j hlt hj2

theorem powLoop_complete (message : String) (k : Nat)
    (hk : foundMatch message k = true) :
    ∀ (fuel start : Nat), start ≤ k → k < start + fuel →
      ∃ n, powLoop message fuel start = some n ∧ n ≤ k
  | 0, start, _, h2 => by omega
  | fuel + 1, start, h1, h2 => by
      rw [powLoop]
      by_cases hf : foundMatch message start
      · exact ⟨start, by rw [if_pos hf], h1⟩
      · have hne : start ≠ k := fun he => hf (he ▸ hk)
        obtain ⟨n, hn, hnk⟩ :=
          powLoop_complete message k hk fuel (start + 1) (by omega) (by omega)
        exact ⟨n, by rw [if_neg hf]; exact hn, hnk⟩

theorem listMax_none : ∀ l : List Nat, listMax l = none ↔ l = []
  | [] => by simp [listMax]
  | x :: xs => by simp [listMax]

theorem listMax_mem : ∀ (l : List Nat) (m : Nat), listMax l = some m → m ∈ l
  | [], m, h => by simp [listMax] at h
  | x :: xs, m, h => by
      rw [listMax] at h
      injection h with h
      cases hxs : listMax xs with
      | none => rw [hxs] at h; subst h; simp
      | some m' =>
          rw [hxs] at h
          subst h
          have hm := listMax_mem xs m' hxs
          show Nat.max x m' ∈ x :: xs
          have hd : x.max m' = if x ≤ m' then m' else x := rfl
          by_cases hxm : x ≤ m'
          · rw [hd, if_pos hxm]; simp [hm]
          · rw [hd, if_neg hxm]; simp

theorem dbFold_spec (blockName : String) :
    ∀ (txs : List VT) (a : PyFloat) (db : DB),
      txs.foldl (fun (p : PyFloat × DB) t =>
        (pfAdd p.1 t.amount, addTransaction p.2 blockName t)) (a, db) =
      (txs.foldl (fun s t => pfAdd s t.amount) a,
       { db with txRows := db.txRows ++ txs.map (fun t =>
          ⟨blockName, t.sender, t.receiver, t.amount, t.submittedTime,
           t.verifiedTime⟩) })
  | [], a, db => by simp
  | t :: ts, a, db => by
      simp only [List.foldl_cons, List.map_cons]
      rw [dbFold_spec blockName ts]
      simp [addTransaction]

theorem addBlock_fields (db : DB) (blockName : String) (txs : List VT)
    (ts : String) :
    (addBlock db blockName txs ts).blocks = db.blocks ++
      [⟨db.nextId, blockName, txs.length, pfSum (txs.map (fun t => t.amount)),
        ts, hexdigest (blockHashString blockName txs ts)⟩] ∧
    (addBlock db blockName txs ts).txRows = db.txRows ++ txs.map (fun t =>
      ⟨blockName, t.sender, t.receiver, t.amount, t.submittedTime,
       t.verifiedTime⟩) ∧
    (addBlock db blockName txs ts).wallets = db.wallets ∧
    (addBlock db blockName txs ts).nextId = db.nextId + 1 := by
  unfold addBlock dbAddBlock
  rw [dbFold_spec]
  simp [pfSum, List.foldl_map]

theorem lastHash_of_sorted :
    ∀ (l : List BlockRow), List.Pairwise (· < ·) (l.map (fun r => r.id)) →
      (match listMax (l.map (fun r => r.id)) with
       | none => none
       | some m => (l.find? (fun r => r.id = m)).map (fun r => r.hash)) =
      l.getLast?.map (fun r => r.hash)
  | [], _ => rfl
  | [a], _ => by simp [listMax, List.find?]
  | a :: b :: l, h => by
      have hmap : List.map (fun r => r.id) (a :: b :: l) =
          a.id :: List.map (fun r => r.id) (b :: l) := by simp
      rw [hmap] at h
      have hp := List.pairwise_cons.mp h
      have htail := lastHash_of_sorted (b :: l) hp.2
      obtain ⟨m', hm'⟩ : ∃ m', listMax ((b :: l).map (fun r => r.id)) = some m' := by
        cases hc : listMax ((b :: l).map (fun r => r.id)) with
        | none =>
            exact absurd ((listMax_none _).mp hc) (by simp)
        | some m' => exact ⟨m', rfl⟩
      have hlt : a.id < m' := hp.1 m' (listMax_mem _ _ hm')
      have hlm : listMax (List.map (fun r => r.id) (a :: b :: l)) =
          some (Nat.max a.id m') := by
        rw [hmap, listMax, hm']
      have hmax : Nat.max a.id m' = m' := by
        have hd : Nat.max a.id m' = if a.id ≤ m' then m' else a.id := rfl
        rw [hd, if_pos (Nat.le_of_lt hlt)]
      rw [hm'] at htail
      simp only [hlm, hmax]
      rw [List.find?_cons_of_neg _ (by simp; omega)]
      rw [show (a :: b :: l).getLast? = (b :: l).getLast? from
        List.getLast?_cons_cons]
      exact htail

theorem find?_append_none {α} (l1 l2 : List α) (p : α → Bool)
    (h : l1.find? p = none) : (l1 ++ l2).find? p = l2.find? p := by
  rw [List.find?_append, h]
  rfl

theorem unique_find?_none (db : DB) (owner : String)
    (h : isUniqueName db owner = true) :
    db.wallets.find? (fun r => r.name = owner) = none := by
  rw [List.find?_eq_none]
  intro r hr
  simp only [isUniqueName, getUsers, Bool.not_eq_true'] at h
  intro hc
  have hmem : owner ∈ db.wallets.map (fun r => r.name) := by
    simp only [List.mem_map]
    exact ⟨r, hr, by simpa using hc⟩
  unfold List.contains at h
  rw [List.elem_eq_true_of_mem hmem] at h
  cases h

theorem submitTransaction_eq (st : SysState) (sender receiver : String)
    (amount : PyFloat) (password timestamp : String) (salt : Nat) :
    submitTransaction st sender receiver amount password timestamp salt =
      match getWallet st.db sender with
      | none => (false, st)
      | some row =>
          if row.pvtKey.password = password then
            (true, { st with queue := st.queue ++
              [⟨sender, receiver, amount,
                b64encodeBytes (sigBytes row.pvtKey.keyId
                  (transactionMessage sender amount receiver) salt),
                timestamp⟩] })
          else (false, st) := by
  unfold submitTransaction pendingSign loadFromDatabase walletSign
    decryptPrivateKey
  cases hw : getWallet st.db sender with
  | none => rfl
  | some row =>
      simp only [Option.map_some']
      by_cases hp : row.pvtKey.password = password
      · rw [if_pos hp, if_pos hp]
        simp [sigBytes_encode_ne_empty]
      · rw [if_neg hp, if_neg hp]

/-! ## Claim theorems -/

/-- Claim C2: for every committed block, the persisted block row's
`transaction_count` equals the number of verified transactions in the batch,
its `total_amount` equals the sum of their amounts, and its `hash` is the
SHA-256 digest of the sorted-key JSON serialization of
`{name, serialized transactions, commit timestamp}`; the block's transaction
rows are appended alongside. -/
theorem add_block_row_spec (db : DB) (blockName : String) (txs : List VT)
    (ts : String) :
    (addBlock db blockName txs ts).blocks = db.blocks ++
      [⟨db.nextId, blockName, txs.length, pfSum (txs.map (fun t => t.amount)),
        ts, hexdigest (blockHashString blockName txs ts)⟩] ∧
    (addBlock db blockName txs ts).txRows = db.txRows ++ txs.map (fun t =>
      ⟨blockName, t.sender, t.receiver, t.amount, t.submittedTime,
       t.verifiedTime⟩) :=
  ⟨(addBlock_fields db blockName txs ts).1,
   (addBlock_fields db blockName txs ts).2.1⟩

/-- Claim C4: `submit_transaction` returns `False` and leaves the pending
queue untouched when the sender has no wallet or the passphrase does not
decrypt the private key; otherwise it returns `True` and appends exactly the
entry `{sender, receiver, amount, signature, submitted_time}` at the end of
the queue. -/
theorem submit_transaction_spec (st : SysState) (sender receiver : String)
    (amount : PyFloat) (password timestamp : String) (salt : Nat) :
    submitTransaction st sender receiver amount password timestamp salt =
      match getWallet st.db sender with
      | none => (false, st)
      | some row =>
          if row.pvtKey.password = password then
            (true, { st with queue := st.queue ++
              [⟨sender, receiver, amount,
                b64encodeBytes (sigBytes row.pvtKey.keyId
                  (transactionMessage sender amount receiver) salt),
                timestamp⟩] })
          else (false, st) :=
  submitTransaction_eq st sender receiver amount password timestamp salt

/-- Claim C5, counterexample: `Wallet.verify` does not return a boolean for
every signature value — on a signature that is not decodable base64 (here
`"a"`, whose padding is incorrect) the `TypeError` raised by
`base64.b64decode` escapes, because the `except` clause catches only
`InvalidSignature`. -/
theorem wallet_verify_raises_on_bad_base64 :
    walletVerify ⟨"A", ⟨7, "pw"⟩, some 7⟩ "m" "a" = .error .typeError := by
  decide

/-- Claim C5 (amended): for every message, signature and owner with a stored
identity, `Wallet.verify` returns a boolean — true exactly on cryptographic
validity — whenever the signature base64-decodes, and the cryptographic
mismatch case is returned as `False`, not raised; a signature that fails
base64 decoding raises a `TypeError` to the caller. -/
theorem wallet_verify_spec (pk : Nat) (ek : EncKey) (o message signature : String) :
    walletVerify ⟨o, ek, some pk⟩ message signature =
      match b64decode signature with
      | none => .error .typeError
      | some bs => .ok (rsaVerify pk message bs) := by
  unfold walletVerify
  cases b64decode signature <;> rfl

/-- Claim C6: `get_last_block_hash` returns the hash of the row with the
maximal block id — under the strictly-increasing id discipline that insertion
maintains, the most recently appended block — and `none` on an empty ledger;
`add_block` preserves that discipline. -/
theorem last_block_hash_spec (db : DB) (h : BlocksWF db) :
    getLastBlockHash db = db.blocks.getLast?.map (fun r => r.hash) ∧
    (db.blocks = [] → getLastBlockHash db = none) ∧
    ∀ blockName txs ts, BlocksWF (addBlock db blockName txs ts) := by
  refine ⟨lastHash_of_sorted db.blocks h.1, ?_, ?_⟩
  · intro he
    unfold getLastBlockHash
    rw [he]
    rfl
  · intro bn txs ts
    obtain ⟨hb, -, -, hn⟩ := addBlock_fields db bn txs ts
    constructor
    · rw [hb, List.map_append]
      apply List.pairwise_append.mpr
      refine ⟨h.1, by simp, ?_⟩
      intro x hx y hy
      simp only [List.map_cons, List.map_nil, List.mem_cons,
        List.not_mem_nil, or_false] at hy
      subst hy
      simp only [List.mem_map] at hx
      obtain ⟨r, hr, rfl⟩ := hx
      exact h.2 r hr
    · intro r hr
      rw [hb] at hr
      rw [hn]
      rcases List.mem_append.mp hr with hr | hr
      · have := h.2 r hr
        omega
      · simp only [List.mem_cons, List.not_mem_nil, or_false] at hr
        subst hr
        simp

/-- Witness for C6 at a concrete two-block ledger. -/
theorem last_block_hash_spec_witness :
    getLastBlockHash cDbTwoBlocks = some "h2" :=
  (last_block_hash_spec cDbTwoBlocks (by decide)).1.trans (by decide)

/-- Claim C8: whenever `verify_pending_transactions` returns the empty list —
an empty queue or one whose entries all fail verification — `mine` writes
nothing: it returns with the state unchanged (same ledger, same
`last_block_hash`, pending queue untouched) and the no-block outcome. -/
theorem mine_empty_frame (st : SysState) (fuel : Nat) (blockName ts now : String)
    (h : verifyPendingTransactions st.db st.queue now = .ok []) :
    mine st fuel blockName ts now = .ok (some (st, false)) := by
  unfold mine
  rw [h]

/-- Witness for C8: a queue holding one unverifiable entry (unknown sender)
is left untouched by `mine`. -/
theorem mine_empty_frame_witness :
    mine cStGhost 3 "blk" "ts" "now" = .ok (some (cStGhost, false)) :=
  mine_empty_frame cStGhost 3 "blk" "ts" "now" (by decide)

/-- Claim C7: after `generate(owner, p1)` has created a wallet, a second
`generate(owner, p2)` — even with `p2 ≠ p1` — does not error: it returns the
identity created under `p1` (the private key encrypted under `p1`) and leaves
the database unchanged, creating no new keypair or record. -/
theorem generate_idempotent (db : DB) (owner p1 p2 : String) (k1 k2 : Nat)
    (h : isUniqueName db owner = true) :
    (walletGenerate (walletGenerate db owner p1 k1).2 owner p2 k2).2 =
      (walletGenerate db owner p1 k1).2 ∧
    (walletGenerate (walletGenerate db owner p1 k1).2 owner p2 k2).1 =
      (walletGenerate db owner p1 k1).1 ∧
    (walletGenerate db owner p1 k1).1 = some ⟨owner, ⟨k1, p1⟩, some k1⟩ := by
  have hfind := unique_find?_none db owner h
  have hrow : getWallet (addWallet db ⟨owner, k1, ⟨k1, p1⟩⟩) owner =
      some ⟨owner, k1, ⟨k1, p1⟩⟩ := by
    show (db.wallets ++ [(⟨owner, k1, ⟨k1, p1⟩⟩ : WalletRow)]).find?
        (fun r => r.name = owner) = some ⟨owner, k1, ⟨k1, p1⟩⟩
    rw [find?_append_none _ _ _ hfind]
    simp [List.find?]
  have e1 : walletGenerate db owner p1 k1 =
      (some ⟨owner, ⟨k1, p1⟩, some k1⟩, addWallet db ⟨owner, k1, ⟨k1, p1⟩⟩) := by
    unfold walletGenerate
    rw [h]
    simp only [Bool.not_true, Bool.false_eq_true, if_false]
    unfold loadPubKey
    rw [hrow]
    rfl
  have hnotuniq : isUniqueName (addWallet db ⟨owner, k1, ⟨k1, p1⟩⟩) owner = false := by
    unfold isUniqueName getUsers addWallet
    simp [List.contains_eq_any_beq]
  have e2 : walletGenerate (addWallet db ⟨owner, k1, ⟨k1, p1⟩⟩) owner p2 k2 =
      (some ⟨owner, ⟨k1, p1⟩, some k1⟩, addWallet db ⟨owner, k1, ⟨k1, p1⟩⟩) := by
    unfold walletGenerate
    rw [hnotuniq]
    simp only [Bool.not_false, if_true]
    unfold loadFromDatabase loadPubKey
    rw [hrow]
    simp only [Option.map_some']
    rw [hrow]
    rfl
  rw [e1, e2]
  exact ⟨rfl, rfl, rfl⟩

/-- Witness for C7: two generations for the same fresh owner under different
passphrases. -/
theorem generate_idempotent_witness :
    (walletGenerate (walletGenerate ⟨[], [], [], 1⟩ "A" "x" 3).2 "A" "y" 4).2 =
      (walletGenerate ⟨[], [], [], 1⟩ "A" "x" 3).2 ∧
    (walletGenerate (walletGenerate ⟨[], [], [], 1⟩ "A" "x" 3).2 "A" "y" 4).1 =
      (walletGenerate ⟨[], [], [], 1⟩ "A" "x" 3).1 ∧
    (walletGenerate ⟨[], [], [], 1⟩ "A" "x" 3).1 = some ⟨"A", ⟨3, "x"⟩, some 3⟩ :=
  generate_idempotent ⟨[], [], [], 1⟩ "A" "x" "y" 3 4 (by decide)

/-- Claim C3, counterexample: `verify_pending_transactions` does not always
return the verified subset — an entry whose sender exists but whose stored
signature is undecodable base64 (here `"a"`) makes the `TypeError` from
`base64.b64decode` escape, so no list is returned at all. -/
theorem verify_pending_raises_on_undecodable :
    verifyPendingTransactions cDb [cUndecodable] "now" = .error .typeError := by
  decide

/-- Claim C3 (amended): provided no queued entry raises during verification
(its stored signature decodes, or its sender has no identity, in which case it
is dropped before decoding), `verify_pending_transactions` returns exactly the
subset of entries whose signature verifies against the sender's public key
over the recomputed canonical message, each stamped with the current time as
`verified_time`; failing entries are silently dropped. -/
theorem verify_pending_filters (db : DB) (now : String) :
    ∀ (queue : List PendingEntry),
      (∀ e ∈ queue, (verifyTransaction db e).isOk = true) →
      verifyPendingTransactions db queue now =
        .ok (queue.filterMap (fun e =>
          if verifyTransaction db e = .ok true then
            some ⟨e.sender, e.receiver, e.amount, e.submittedTime, now⟩
          else none))
  | [], _ => rfl
  | e :: rest, h => by
      have ih := verify_pending_filters db now rest
        (fun e' he' => h e' (List.mem_cons_of_mem _ he'))
      have he := h e (List.mem_cons_self _ _)
      unfold verifyPendingTransactions
      cases hv : verifyTransaction db e with
      | error exc => rw [hv] at he; cases he
      | ok b =>
          rw [ih]
          cases b <;> simp [List.filterMap_cons, hv]

/-- Witness for C3: a queue holding one tampered-signature entry between two
valid entries yields exactly the two valid verified transactions. -/
theorem verify_pending_filters_witness :
    verifyPendingTransactions cDb [cGood1, cTampered, cGood3] "now" =
      .ok [⟨"A", "B", pfInt 1, "s1", "now"⟩, ⟨"A", "C", pfInt 3, "s3", "now"⟩] :=
  (verify_pending_filters cDb "now" [cGood1, cTampered, cGood3]
    (by decide)).trans (by decide)

set_option maxRecDepth 1000000 in
/-- Claim C1, counterexample: on a non-empty ledger the proof-of-work seed is
not the stringified transactions concatenated with the previous block's hash.
`database.get_last_block_hash` returns the `fetchone` row — a one-element
tuple holding the hash — and `Mining.proof_of_work` stringifies that tuple,
so the seed embeds `(u'<hash>',)` rather than the hash itself. -/
theorem pow_seed_claim_false :
    powMessage [cVt] cDbOneBlock ≠ powMessageClaimed [cVt] cDbOneBlock ∧
    getLastBlockHash cDbOneBlock = some "ab" := by
  decide

/-- Claim C1 (amended): the proof-of-work seed is the stringified verified
transactions concatenated with the Python rendering of the fetched
last-block-hash row — `(u'<hash>',)` for the previous block's hash, or the
constant `"00"` when the ledger is empty — and, assuming some nonce satisfies
the puzzle, the search returns the least `n ≥ 0` whose digest
`SHA256(seed + str(n))` starts with two `'0'` hex characters (any fuel beyond
that nonce yields it). -/
theorem proof_of_work_least_nonce (txs : List VT) (db : DB) (k : Nat)
    (hk : foundMatch (powMessage txs db) k = true) :
    ∃ n, n ≤ k ∧ foundMatch (powMessage txs db) n = true ∧
      (∀ j, j < n → foundMatch (powMessage txs db) j = false) ∧
      ∀ fuel, k < fuel → proofOfWork txs db fuel = some n := by
  obtain ⟨n, hn, hnk⟩ := powLoop_complete (powMessage txs db) k hk (k + 1) 0
    (Nat.zero_le _) (by omega)
  obtain ⟨-, hfound, hleast⟩ := powLoop_sound (powMessage txs db) (k + 1) 0 n hn
  refine ⟨n, hnk, hfound, fun j hj => hleast j (Nat.zero_le _) hj, ?_⟩
  intro fuel hf
  obtain ⟨n', hn', hn'k⟩ := powLoop_complete (powMessage txs db) k hk fuel 0
    (Nat.zero_le _) (by omega)
  obtain ⟨-, hfound', hleast'⟩ := powLoop_sound (powMessage txs db) fuel 0 n' hn'
  have he : n = n' := by
    rcases Nat.lt_trichotomy n n' with hlt | heq | hgt
    · have hc := hleast' n (Nat.zero_le _) hlt
      rw [hfound] at hc
      cases hc
    · exact heq
    · have hc := hleast n' (Nat.zero_le _) hgt
      rw [hfound'] at hc
      cases hc
  rw [proofOfWork, he]
  exact hn'

set_option maxRecDepth 1000000 in
/-- Witness for C1 at the concrete run: nonce 0 already satisfies the
puzzle. -/
theorem proof_of_work_least_nonce_witness :
    ∃ n, n ≤ 0 ∧ foundMatch (powMessage [cVt] cDb) n = true ∧
      (∀ j, j < n → foundMatch (powMessage [cVt] cDb) j = false) ∧
      ∀ fuel, 0 < fuel → proofOfWork [cVt] cDb fuel = some n :=
  proof_of_work_least_nonce [cVt] cDb 0 (by decide)

/-- Claim C9: a successful mining run leaves the pending queue cleared, so an
immediate second `mine` with no intervening submissions finds nothing to
verify, reports the no-block outcome and returns the state — ledger and block
count included — unchanged. -/
theorem mine_clears_queue_second_noop (st st' : SysState) (fuel fuel2 : Nat)
    (bn ts now bn2 ts2 now2 : String)
    (h : mine st fuel bn ts now = .ok (some (st', true))) :
    st'.queue = [] ∧
    verifyPendingTransactions st'.db st'.queue now2 = .ok [] ∧
    mine st' fuel2 bn2 ts2 now2 = .ok (some (st', false)) := by
  unfold mine at h
  revert h
  cases hv : verifyPendingTransactions st.db st.queue now with
  | error e =>
      intro h
      exact Except.noConfusion h
  | ok l =>
      cases l with
      | nil =>
          intro h
          have h' : Except.ok (ε := PyExc) (some (st, false)) =
              Except.ok (some (st', true)) := h
          simp at h'
      | cons v vs =>
          intro h
          replace h : (match powLoop (powMessage (v :: vs) st.db) fuel 0 with
              | none => (Except.ok none : Except PyExc (Option (SysState × Bool)))
              | some _ =>
                  Except.ok (some (addToBlockchain st (v :: vs) bn ts, true))) =
              Except.ok (some (st', true)) := h
          revert h
          cases hp : powLoop (powMessage (v :: vs) st.db) fuel 0 with
          | none =>
              intro h
              have h' : Except.ok (ε := PyExc)
                  (none : Option (SysState × Bool)) =
                  Except.ok (some (st', true)) := h
              simp at h'
          | some n =>
              intro h
              have h' : Except.ok (ε := PyExc)
                  (some (addToBlockchain st (v :: vs) bn ts, true)) =
                  Except.ok (some (st', true)) := h
              simp only [Except.ok.injEq, Option.some.injEq, Prod.mk.injEq,
                and_true] at h'
              subst h'
              refine ⟨rfl, rfl, ?_⟩
              unfold mine
              rfl

set_option maxRecDepth 1000000 in
/-- Witness for C9: running `mine` right after the concrete successful run
reports nothing to mine and changes nothing. -/
theorem mine_clears_queue_second_noop_witness :
    cMined.queue = [] ∧
    mine cMined 5 "blk2" "ts3" "now2" = .ok (some (cMined, false)) := by
  have h := mine_clears_queue_second_noop cStAfter cMined 1 5 "blk" "ts2"
    "t897" "blk2" "ts3" "now2" (by decide)
  exact ⟨h.1, h.2.2⟩

/-- Claim C10: `submit_transaction` validates the amount in no way — for every
amount, zero and negative values included, a submission by an existing sender
with the correct passphrase returns `True` and appends the entry; that entry
then verifies, and a mining run (when its nonce search succeeds) commits it
into a block whose transaction row carries the same amount.  The hypotheses
state that the sender's stored row holds a matching key pair (as
`Wallet.generate` persists) and that the queue was empty before the
submission. -/
theorem submit_no_amount_validation (st : SysState) (sender receiver : String)
    (amount : PyFloat) (password ts : String) (salt : Nat) (row : WalletRow)
    (hw : getWallet st.db sender = some row)
    (hk : row.pubKey = row.pvtKey.keyId)
    (hp : row.pvtKey.password = password)
    (hq : st.queue = []) :
    (submitTransaction st sender receiver amount password ts salt).1 = true ∧
    (submitTransaction st sender receiver amount password ts salt).2.queue =
      [⟨sender, receiver, amount,
        b64encodeBytes (sigBytes row.pvtKey.keyId
          (transactionMessage sender amount receiver) salt), ts⟩] ∧
    verifyTransaction st.db
      ⟨sender, receiver, amount,
       b64encodeBytes (sigBytes row.pvtKey.keyId
         (transactionMessage sender amount receiver) salt), ts⟩ = .ok true ∧
    ∀ fuel n bn ts2 now,
      powLoop (powMessage [⟨sender, receiver, amount, ts, now⟩] st.db) fuel 0 =
        some n →
      mine (submitTransaction st sender receiver amount password ts salt).2
          fuel bn ts2 now =
        .ok (some (⟨addBlock st.db bn [⟨sender, receiver, amount, ts, now⟩] ts2,
          []⟩, true)) ∧
      (addBlock st.db bn [⟨sender, receiver, amount, ts, now⟩] ts2).txRows =
        st.db.txRows ++ [⟨bn, sender, receiver, amount, ts, now⟩] ∧
      (addBlock st.db bn
          [⟨sender, receiver, amount, ts, now⟩] ts2).blocks.length =
        st.db.blocks.length + 1 := by
  have hname : row.name = sender := by
    have hs := List.find?_some hw
    simpa using hs
  have hsub' : submitTransaction st sender receiver amount password ts salt =
      (true, { st with queue := st.queue ++
        [⟨sender, receiver, amount,
          b64encodeBytes (sigBytes row.pvtKey.keyId
            (transactionMessage sender amount receiver) salt), ts⟩] }) := by
    have h0 := submitTransaction_eq st sender receiver amount password ts salt
    rw [hw] at h0
    replace h0 : submitTransaction st sender receiver amount password ts salt =
        (if row.pvtKey.password = password then
          (true, { st with queue := st.queue ++
            [⟨sender, receiver, amount,
              b64encodeBytes (sigBytes row.pvtKey.keyId
                (transactionMessage sender amount receiver) salt), ts⟩] })
        else (false, st)) := h0
    rw [h0, if_pos hp]
  have hload : loadFromDatabase st.db sender =
      some ⟨row.name, row.pvtKey, some row.pubKey⟩ := by
    unfold loadFromDatabase
    rw [hw]
    simp only [Option.map_some']
    unfold loadPubKey
    rw [hname, hw]
    rfl
  have hver : verifyTransaction st.db
      ⟨sender, receiver, amount,
       b64encodeBytes (sigBytes row.pvtKey.keyId
         (transactionMessage sender amount receiver) salt), ts⟩ = .ok true := by
    unfold verifyTransaction
    rw [hload]
    rw [hk]
    exact verify_own_signature row.pvtKey.keyId salt row.pvtKey row.name
      (transactionMessage sender amount receiver)
  refine ⟨by rw [hsub'], by rw [hsub', hq]; rfl, hver, ?_⟩
  intro fuel n bn ts2 now hpow
  have hvp : verifyPendingTransactions
      (submitTransaction st sender receiver amount password ts salt).2.db
      (submitTransaction st sender receiver amount password ts salt).2.queue
      now = .ok [⟨sender, receiver, amount, ts, now⟩] := by
    rw [hsub', hq]
    show verifyPendingTransactions st.db
      [⟨sender, receiver, amount,
        b64encodeBytes (sigBytes row.pvtKey.keyId
          (transactionMessage sender amount receiver) salt), ts⟩] now = _
    unfold verifyPendingTransactions
    rw [hver]
    rfl
  have hdb : (submitTransaction st sender receiver amount password ts
      salt).2.db = st.db := by
    rw [hsub']
  refine ⟨?_, ?_, ?_⟩
  · unfold mine
    rw [hvp, hdb]
    show (match powLoop
        (powMessage [(⟨sender, receiver, amount, ts, now⟩ : VT)] st.db)
        fuel 0 with
      | none => (Except.ok none : Except PyExc (Option (SysState × Bool)))
      | some _ => Except.ok (some (addToBlockchain
          (submitTransaction st sender receiver amount password ts salt).2
          [⟨sender, receiver, amount, ts, now⟩] bn ts2, true))) =
      Except.ok (some (⟨addBlock st.db bn
        [⟨sender, receiver, amount, ts, now⟩] ts2, []⟩, true))
    rw [hpow, hsub']
    rfl
  · exact (addBlock_fields st.db bn [⟨sender, receiver, amount, ts, now⟩]
      ts2).2.1
  · rw [(addBlock_fields st.db bn [⟨sender, receiver, amount, ts, now⟩]
      ts2).1]
    simp

set_option maxRecDepth 1000000 in
/-- Witness for C10: a negative amount (-2.0) is submitted, verified and
mined into a committed block at the concrete scenario. -/
theorem submit_no_amount_validation_witness :
    (submitTransaction ⟨cDb, []⟩ "A" "B" (pfInt (-2)) "pw" "s" 5).1 = true ∧
    mine (submitTransaction ⟨cDb, []⟩ "A" "B" (pfInt (-2)) "pw" "s" 5).2
        1 "blk" "ts2" "t897" =
      .ok (some (⟨addBlock cDb "blk" [cVt] "ts2", []⟩, true)) := by
  obtain ⟨h1, -, -, h4⟩ := submit_no_amount_validation ⟨cDb, []⟩ "A" "B"
    (pfInt (-2)) "pw" "s" 5 cWalletA (by decide) rfl rfl rfl
  exact ⟨h1, (h4 1 0 "blk" "ts2" "t897" (by decide)).1⟩
